import Mathlib

/-!
Verification of the chitchat native backend (`src/src-tauri/src/lib.rs`).

The Rust code is shallowly embedded:
* the OS process-snapshot provider is parameterised by the outcome of the
  external command (`none` = the command could not be invoked,
  `some (success, stdout)` = it ran and produced `stdout`);
* `detect_running_game` is parameterised by the snapshot that
  `process_names` would have produced;
* `f64` values are modelled by `FVal`: NaN and the two infinities are
  explicit constructors and finite values are exact rationals.  All the
  arithmetic the code performs on floats (clamp to `[0,1]`, multiply by an
  exactly representable integer `dimension - 1`, divide by `60.0`, `round`,
  cast `as i32`) is exact or monotone at the points the theorems use, so
  the rational model agrees with IEEE semantics there;
* the input-injection dispatcher returns the list of native input actions
  it would request from the injection library (assumed to succeed, as the
  library is external), or the error string it returns before reaching it;
* Rust `to_lowercase` is modelled by per-character ASCII case folding
  (every catalog name is ASCII).
-/

namespace ChitChat

/-- `enum GameDetection { None, Known { game, executable } }` (lib.rs 13-20). -/
inductive GameDetection where
  | None : GameDetection
  | Known : (game : String) → (executable : String) → GameDetection
deriving DecidableEq, Repr

/-- The static catalog `game_process_catalog` (lib.rs 22-49), in source order:
pairs `(executable name, game title)`. -/
def game_process_catalog : List (String × String) :=
  [ ("haloinfinite.exe", "Halo Infinite"),
    ("mcc-win64-shipping.exe", "Halo: The Master Chief Collection"),
    ("cs2.exe", "Counter-Strike 2"),
    ("valorant-win64-shipping.exe", "VALORANT"),
    ("fortniteclient-win64-shipping.exe", "Fortnite"),
    ("r5apex.exe", "Apex Legends"),
    ("overwatch.exe", "Overwatch 2"),
    ("cod.exe", "Call of Duty"),
    ("eldenring.exe", "Elden Ring"),
    ("eldenring", "Elden Ring"),
    ("dota2.exe", "Dota 2"),
    ("dota2", "Dota 2"),
    ("league of legends.exe", "League of Legends"),
    ("rocketleague.exe", "Rocket League"),
    ("gta5.exe", "Grand Theft Auto V"),
    ("minecraft.exe", "Minecraft"),
    ("rustclient.exe", "Rust"),
    ("pubg-win64-shipping.exe", "PUBG: Battlegrounds"),
    ("rainbowsix.exe", "Rainbow Six Siege"),
    ("rainbowsix_vulkan.exe", "Rainbow Six Siege"),
    ("destiny2.exe", "Destiny 2"),
    ("wow.exe", "World of Warcraft"),
    ("ffxiv_dx11.exe", "Final Fantasy XIV"),
    ("osu!.exe", "osu!") ]

/-- Rust `str::to_lowercase`, modelled as per-character ASCII case folding
(every catalog executable name is ASCII). -/
def to_lowercase (s : String) : String :=
  String.mk (s.data.map Char.toLower)

/-- POSIX branch of `process_names` (lib.rs 79-94): `ps -eo comm=` output is
split into lines, each trimmed and lower-cased, empty lines dropped; any
failure to run the command (`none`) or a non-success status yields `[]`. -/
def process_names_posix (output : Option (Bool × String)) : List String :=
  match output with
  | some (true, text) =>
      ((text.splitOn "\n").map (fun line => to_lowercase line.trim)).filter
        (fun line => !line.isEmpty)
  | _ => []

/-- First CSV field of a trimmed `tasklist /fo csv` line (lib.rs 68-71): if the
line starts with `"`, the quote is dropped and everything before the first
`",` is kept; otherwise the whole trimmed line is used. -/
def tasklist_first_field (trimmed : String) : String :=
  if trimmed.startsWith "\"" then
    match (trimmed.drop 1).splitOn "\"," with
    | f :: _ => f
    | [] => trimmed
  else trimmed

/-- Windows branch of `process_names` (lib.rs 52-77): each non-empty trimmed
line of the `tasklist` output contributes the lower-cased first CSV field;
failure or a non-success status yields `[]`. -/
def process_names_windows (output : Option (Bool × String)) : List String :=
  match output with
  | some (true, text) =>
      (text.splitOn "\n").filterMap (fun line =>
        let trimmed := line.trim
        if trimmed.isEmpty then none
        else some (to_lowercase (tasklist_first_field trimmed)))
  | _ => []

/-- `detect_running_game` (lib.rs 98-115), parameterised by the snapshot
`running` that `process_names()` returned: if the snapshot is empty the
result is `None`; otherwise the catalog is scanned in declaration order and
the first entry whose executable name occurs in the snapshot wins. -/
def detect_running_game (running : List String) : GameDetection :=
  if running.isEmpty then GameDetection.None
  else
    match game_process_catalog.find?
        (fun p => running.any (fun name => name == p.1)) with
    | some (process_name, game_title) => GameDetection.Known game_title process_name
    | none => GameDetection.None

/-- An `f64` value: NaN, the infinities, or an exact finite rational. -/
inductive FVal where
  | nan : FVal
  | pinf : FVal
  | ninf : FVal
  | finite : ℚ → FVal
deriving DecidableEq, Repr

/-- `enigo::Button` values reachable from this code. -/
inductive Button where
  | Left : Button
  | Right : Button
  | Middle : Button
deriving DecidableEq, Repr

/-- `enigo::Direction` values reachable from this code. -/
inductive Direction where
  | Press : Direction
  | Release : Direction
deriving DecidableEq, Repr

/-- `enigo::Axis` values reachable from this code. -/
inductive Axis where
  | Vertical : Axis
deriving DecidableEq, Repr

/-- `enigo::Key` values reachable from `to_key`. -/
inductive Key where
  | Return : Key
  | Escape : Key
  | Backspace : Key
  | Tab : Key
  | Space : Key
  | UpArrow : Key
  | DownArrow : Key
  | LeftArrow : Key
  | RightArrow : Key
  | Unicode : Char → Key
deriving DecidableEq, Repr

/-- `enum RemoteControlInputEvent` (lib.rs 117-140). -/
inductive RemoteControlInputEvent where
  | PointerMove : (x_norm y_norm : FVal) → RemoteControlInputEvent
  | PointerDown : (button : String) → RemoteControlInputEvent
  | PointerUp : (button : String) → RemoteControlInputEvent
  | Wheel : (delta_y : FVal) → RemoteControlInputEvent
  | KeyDown : (key : String) → RemoteControlInputEvent
  | KeyUp : (key : String) → RemoteControlInputEvent

/-- `to_mouse_button` (lib.rs 142-149). -/
def to_mouse_button (name : String) : Option Button :=
  if name = "left" then some Button.Left
  else if name = "right" then some Button.Right
  else if name = "middle" then some Button.Middle
  else none

/-- `to_key` (lib.rs 151-170).  Rust `name.chars().count()` is the number of
characters `name.data.length`, and `chars().next().unwrap_or(' ')` is
`name.data.headD ' '`. -/
def to_key (name : String) : Key :=
  if name = "Enter" then Key.Return
  else if name = "Escape" then Key.Escape
  else if name = "Backspace" then Key.Backspace
  else if name = "Tab" then Key.Tab
  else if name = "Space" ∨ name = " " then Key.Space
  else if name = "ArrowUp" then Key.UpArrow
  else if name = "ArrowDown" then Key.DownArrow
  else if name = "ArrowLeft" then Key.LeftArrow
  else if name = "ArrowRight" then Key.RightArrow
  else if name.data.length = 1 then Key.Unicode (name.data.headD ' ')
  else Key.Unicode ' '

/-- Rust `f64::round`: round half away from zero. -/
def roundAway (q : ℚ) : Int :=
  if q < 0 then -Int.floor (-q + 1/2) else Int.floor (q + 1/2)

/-- Truncation toward zero, the finite case of a Rust float-to-int cast. -/
def ratTrunc (q : ℚ) : Int :=
  if q < 0 then Int.ceil q else Int.floor q

/-- Rust `f64::clamp(0.0, 1.0)`: NaN propagates, infinities clamp to the
nearest bound, finite values clamp to `[0,1]`. -/
def fclamp01 : FVal → FVal
  | FVal.nan => FVal.nan
  | FVal.pinf => FVal.finite 1
  | FVal.ninf => FVal.finite 0
  | FVal.finite q => FVal.finite (max 0 (min 1 q))

/-- Multiplication by a nonnegative finite constant (the code multiplies the
output of `fclamp01` — never an infinity — by `dimension - 1 ≥ 0`, which is
exactly representable, so finite products are exact). -/
def fmulQ : FVal → ℚ → FVal
  | FVal.nan, _ => FVal.nan
  | FVal.pinf, _ => FVal.pinf
  | FVal.ninf, _ => FVal.ninf
  | FVal.finite q, m => FVal.finite (q * m)

/-- Division by a positive constant (the code divides by `60.0`; as shown in
the comment on `wheel_steps`, rounding the exact quotient agrees with
rounding the IEEE quotient for every finite `f64`). -/
def fdivQ : FVal → ℚ → FVal
  | FVal.nan, _ => FVal.nan
  | FVal.pinf, _ => FVal.pinf
  | FVal.ninf, _ => FVal.ninf
  | FVal.finite q, m => FVal.finite (q / m)

/-- Rust `f64::round` lifted to `FVal`. -/
def fround : FVal → FVal
  | FVal.finite q => FVal.finite (roundAway q)
  | v => v

/-- Rust `as i32` on an `f64`: NaN casts to 0, out-of-range values saturate
at the `i32` bounds, finite values truncate toward zero. -/
def fCastI32 : FVal → Int
  | FVal.nan => 0
  | FVal.pinf => 2 ^ 31 - 1
  | FVal.ninf => -(2 ^ 31)
  | FVal.finite q => max (-(2 ^ 31)) (min (2 ^ 31 - 1) (ratTrunc q))

/-- The primary monitor's geometry as tauri reports it: `size` is a
`PhysicalSize<u32>` and `position` a `PhysicalPosition<i32>`. -/
structure Monitor where
  width : Nat
  height : Nat
  pos_x : Int
  pos_y : Int

/-- One axis of the `PointerMove` computation (lib.rs 186-189):
`position + (norm.clamp(0.0, 1.0) * (dim.saturating_sub(1) as f64)).round() as i32`.
`Nat` subtraction is saturating, matching `saturating_sub`. -/
def pointer_coord (origin : Int) (dim : Nat) (v : FVal) : Int :=
  origin + fCastI32 (fround (fmulQ (fclamp01 v) ((dim - 1 : Nat) : ℚ)))

/-- The scroll-step count of a `Wheel` event (lib.rs 209):
`(delta_y / 60.0).round() as i32`. -/
def wheel_steps (delta_y : FVal) : Int :=
  fCastI32 (fround (fdivQ delta_y 60))

/-- A native input action requested from the injection library. -/
inductive NativeAction where
  | moveMouse : (x y : Int) → NativeAction
  | buttonAct : Button → Direction → NativeAction
  | scroll : (steps : Int) → Axis → NativeAction
  | keyAct : Key → Direction → NativeAction
deriving DecidableEq, Repr

/-- `apply_remote_control_input` (lib.rs 172-228), parameterised by the
primary monitor (`none` when no primary monitor is available) and returning
the list of native input actions performed, or the error string produced
before any action.  The construction of the injection handle and the native
calls themselves are external-library effects assumed to succeed. -/
def apply_remote_control_input (monitor : Option Monitor) :
    RemoteControlInputEvent → Except String (List NativeAction)
  | RemoteControlInputEvent.PointerMove xn yn =>
      match monitor with
      | none => Except.error "No primary monitor available"
      | some m =>
          Except.ok [NativeAction.moveMouse
            (pointer_coord m.pos_x m.width xn)
            (pointer_coord m.pos_y m.height yn)]
  | RemoteControlInputEvent.PointerDown b =>
      match to_mouse_button b with
      | some btn => Except.ok [NativeAction.buttonAct btn Direction.Press]
      | none => Except.ok []
  | RemoteControlInputEvent.PointerUp b =>
      match to_mouse_button b with
      | some btn => Except.ok [NativeAction.buttonAct btn Direction.Release]
      | none => Except.ok []
  | RemoteControlInputEvent.Wheel dy =>
      let steps := wheel_steps dy
      if steps ≠ 0 then Except.ok [NativeAction.scroll steps Axis.Vertical]
      else Except.ok []
  | RemoteControlInputEvent.KeyDown k =>
      Except.ok [NativeAction.keyAct (to_key k) Direction.Press]
  | RemoteControlInputEvent.KeyUp k =>
      Except.ok [NativeAction.keyAct (to_key k) Direction.Release]

/-! ### List helper lemmas -/

/-- `find?` only depends on the pointwise behaviour of the predicate. -/
theorem find?_ext {α : Type} (p q : α → Bool) (h : ∀ a, p a = q a) :
    ∀ l : List α, l.find? p = l.find? q := by
  intro l
  induction l with
  | nil => rfl
  | cons a tl ih =>
    cases hq : q a with
    | true => simp [List.find?, h a, hq]
    | false => simp [List.find?, h a, hq, ih]

/-- If position `i` satisfies `p` and no earlier position does, `find?`
returns the element at position `i`. -/
theorem find?_first {α : Type} (p : α → Bool) :
    ∀ (l : List α) (i : Nat) (hi : i < l.length),
      p (l.get ⟨i, hi⟩) = true →
      (∀ j (hj : j < i), p (l.get ⟨j, Nat.lt_trans hj hi⟩) = false) →
      l.find? p = some (l.get ⟨i, hi⟩) := by
  intro l
  induction l with
  | nil => intro i hi; exact absurd hi (Nat.not_lt_zero i)
  | cons a tl ih =>
    intro i hi hp hbef
    cases i with
    | zero => simp only [List.get] at hp; simp [List.find?, hp, List.get]
    | succ n =>
      have ha : p a = false := by
        have h0 := hbef 0 (Nat.succ_pos n)
        simpa [List.get] using h0
      have hn : n < tl.length := Nat.lt_of_succ_lt_succ hi
      have htl : tl.find? p = some (tl.get ⟨n, hn⟩) := by
        refine ih n hn (by simpa [List.get] using hp) (fun j hj => ?_)
        have hj1 := hbef (j + 1) (Nat.succ_lt_succ hj)
        simpa [List.get] using hj1
      simp [List.find?, ha, htl, List.get]

/-- When the keys of an association list are distinct and the predicate holds
exactly on key `exe`, `find?` returns the unique entry for `exe`. -/
theorem find?_key_unique (exe title : String) :
    ∀ (l : List (String × String)), (l.map Prod.fst).Nodup →
      (exe, title) ∈ l →
      ∀ p : String × String → Bool, (∀ pr ∈ l, (p pr = true ↔ pr.1 = exe)) →
      l.find? p = some (exe, title) := by
  intro l
  induction l with
  | nil => intro _ hmem; exact absurd hmem (List.not_mem_nil _)
  | cons a tl ih =>
    intro hnd hmem p hp
    have hnd1 : a.1 ∉ tl.map Prod.fst ∧ (tl.map Prod.fst).Nodup := by
      rw [List.map_cons, List.nodup_cons] at hnd
      exact hnd
    cases hpa : p a with
    | true =>
      have ha1 : a.1 = exe := (hp a (List.mem_cons_self a tl)).mp hpa
      have haeq : a = (exe, title) := by
        rcases List.mem_cons.mp hmem with h | h
        · exact h.symm
        · exfalso
          apply hnd1.1
          rw [ha1]
          exact List.mem_map_of_mem Prod.fst h
      subst haeq
      simp [List.find?, hpa]
    | false =>
      have ha1 : a.1 ≠ exe := by
        intro h
        have := (hp a (List.mem_cons_self a tl)).mpr h
        simp [this] at hpa
      have hmem' : (exe, title) ∈ tl := by
        rcases List.mem_cons.mp hmem with h | h
        · exact absurd (congrArg Prod.fst h.symm) ha1
        · exact h
      have htl := ih hnd1.2 hmem' p (fun pr hpr => hp pr (List.mem_cons_of_mem a hpr))
      simp [List.find?, hpa, htl]

/-- `detect_running_game` on a non-empty snapshot is the catalog scan. -/
theorem detect_eq_of_ne_empty (running : List String)
    (h : running.isEmpty = false) :
    detect_running_game running =
      match game_process_catalog.find?
          (fun p => running.any fun name => name == p.1) with
      | some pr => GameDetection.Known pr.2 pr.1
      | none => GameDetection.None := by
  unfold detect_running_game
  rw [h]
  cases hf : game_process_catalog.find?
      (fun p => running.any fun name => name == p.1) with
  | none => rfl
  | some pr => cases pr; rfl

/-! ### Claim theorems: detection -/

/-- C1: a snapshot containing (in any case) an exact catalog executable name,
all of whose other entries are unrelated to the catalog, is detected as
`Known` with that entry's title and executable. -/
theorem detect_known_of_catalog_member
    (raw : List String) (exe' exe title : String)
    (hmem : exe' ∈ raw) (hlow : to_lowercase exe' = exe)
    (hcat : (exe, title) ∈ game_process_catalog)
    (hunrel : ∀ n ∈ raw, to_lowercase n ≠ exe →
      to_lowercase n ∉ game_process_catalog.map Prod.fst) :
    detect_running_game (raw.map to_lowercase) =
      GameDetection.Known title exe := by
  have hexe_run : exe ∈ raw.map to_lowercase := by
    rw [← hlow]; exact List.mem_map_of_mem to_lowercase hmem
  have hne : raw.map to_lowercase ≠ [] := List.ne_nil_of_mem hexe_run
  have hempty : (raw.map to_lowercase).isEmpty = false := by
    cases h : raw.map to_lowercase with
    | nil => exact absurd h hne
    | cons _ _ => rfl
  have hnd : (game_process_catalog.map Prod.fst).Nodup := by decide
  have hiff : ∀ pr ∈ game_process_catalog,
      (((raw.map to_lowercase).any fun name => name == pr.1) = true ↔
        pr.1 = exe) := by
    intro pr hpr
    constructor
    · intro hany
      rcases List.any_eq_true.mp hany with ⟨n, hn, hb⟩
      have hn1 : n = pr.1 := by simpa using hb
      rcases List.mem_map.mp hn with ⟨m, hm, hml⟩
      by_contra hne'
      have hml_ne : to_lowercase m ≠ exe := by rw [hml, hn1]; exact hne'
      have hkey := hunrel m hm hml_ne
      rw [hml, hn1] at hkey
      exact hkey (List.mem_map_of_mem Prod.fst hpr)
    · intro h1
      exact List.any_eq_true.mpr ⟨exe, hexe_run, by simp [h1]⟩
  have hfind := find?_key_unique exe title game_process_catalog hnd hcat
    (fun pr => (raw.map to_lowercase).any fun name => name == pr.1) hiff
  rw [detect_eq_of_ne_empty _ hempty, hfind]

/-- C2: the detection result is the first catalog entry, in declaration
order, whose executable name occurs in the snapshot. -/
theorem detect_first_catalog_match (running : List String) (i : Nat)
    (hi : i < game_process_catalog.length)
    (hkey : (game_process_catalog.get ⟨i, hi⟩).1 ∈ running)
    (hbef : ∀ j (hj : j < i),
      (game_process_catalog.get ⟨j, Nat.lt_trans hj hi⟩).1 ∉ running) :
    detect_running_game running =
      GameDetection.Known (game_process_catalog.get ⟨i, hi⟩).2
        (game_process_catalog.get ⟨i, hi⟩).1 := by
  have hne : running ≠ [] := List.ne_nil_of_mem hkey
  have hempty : running.isEmpty = false := by
    cases h : running with
    | nil => exact absurd h hne
    | cons _ _ => rfl
  have hfind := find?_first (fun pr => running.any fun name => name == pr.1)
    game_process_catalog i hi
    (List.any_eq_true.mpr ⟨_, hkey, by simp⟩)
    (fun j hj => by
      cases hany : (running.any
          fun name => name == (game_process_catalog.get
            ⟨j, Nat.lt_trans hj hi⟩).1) with
      | false => exact hany
      | true =>
        rcases List.any_eq_true.mp hany with ⟨n, hn, hb⟩
        have hn' : n = (game_process_catalog.get ⟨j, Nat.lt_trans hj hi⟩).1 := by
          simpa using hb
        exact absurd (hn' ▸ hn) (hbef j hj))
  rw [detect_eq_of_ne_empty _ hempty, hfind]

/-- C3: detection is invariant under permutation of the snapshot. -/
theorem detect_perm_invariant (r1 r2 : List String) (h : r1.Perm r2) :
    detect_running_game r1 = detect_running_game r2 := by
  have hie : r1.isEmpty = r2.isEmpty := by
    cases r1 with
    | nil =>
      cases r2 with
      | nil => rfl
      | cons b t => exact absurd h.length_eq (by simp)
    | cons a s =>
      cases r2 with
      | nil => exact absurd h.length_eq (by simp)
      | cons b t => rfl
  have hpred : ∀ pr : String × String,
      (r1.any fun name => name == pr.1) = (r2.any fun name => name == pr.1) := by
    intro pr
    cases h2 : (r2.any fun name => name == pr.1) with
    | true =>
      rcases List.any_eq_true.mp h2 with ⟨n, hn, hb⟩
      exact List.any_eq_true.mpr ⟨n, h.symm.subset hn, hb⟩
    | false =>
      cases h1 : (r1.any fun name => name == pr.1) with
      | true =>
        rcases List.any_eq_true.mp h1 with ⟨n, hn, hb⟩
        have hc : (r2.any fun name => name == pr.1) = true :=
          List.any_eq_true.mpr ⟨n, h.subset hn, hb⟩
        rw [h2] at hc
        exact absurd hc (by decide)
      | false => rfl
  unfold detect_running_game
  rw [hie, find?_ext _ _ hpred game_process_catalog]

/-- C4: the empty snapshot is detected as `None`, and every failure of the
OS process-listing command (on either platform branch) degrades to the empty
snapshot and hence to `None` — never to an error, as `detect_running_game`
is total into `GameDetection`. -/
theorem detect_empty_and_command_failure :
    detect_running_game [] = GameDetection.None
    ∧ process_names_posix none = []
    ∧ (∀ text, process_names_posix (some (false, text)) = [])
    ∧ process_names_windows none = []
    ∧ (∀ text, process_names_windows (some (false, text)) = [])
    ∧ detect_running_game (process_names_posix none) = GameDetection.None
    ∧ (∀ text, detect_running_game (process_names_posix (some (false, text))) =
        GameDetection.None)
    ∧ detect_running_game (process_names_windows none) = GameDetection.None
    ∧ (∀ text, detect_running_game (process_names_windows (some (false, text))) =
        GameDetection.None) :=
  ⟨rfl, rfl, fun _ => rfl, rfl, fun _ => rfl, rfl, fun _ => rfl, rfl,
    fun _ => rfl⟩

/-- C10: every detection result is `None` or a `Known` whose
(executable, game) pair is an entry of the static catalog; moreover the
result type has only these two variants, so no `Unknown` result exists. -/
theorem detect_result_in_catalog (running : List String) :
    (detect_running_game running = GameDetection.None
      ∨ ∃ exe game, detect_running_game running = GameDetection.Known game exe
          ∧ (exe, game) ∈ game_process_catalog)
    ∧ (∀ d : GameDetection,
        d = GameDetection.None ∨ ∃ g e, d = GameDetection.Known g e) := by
  constructor
  · unfold detect_running_game
    cases he : running.isEmpty with
    | true => exact Or.inl (by simp [he])
    | false =>
      cases hf : game_process_catalog.find?
          (fun p => running.any fun name => name == p.1) with
      | none => exact Or.inl (by simp [he, hf])
      | some pr =>
        rcases pr with ⟨e, g⟩
        exact Or.inr ⟨e, g, by simp [he, hf], List.mem_of_find?_eq_some hf⟩
  · intro d
    cases d with
    | None => exact Or.inl rfl
    | Known g e => exact Or.inr ⟨g, e, rfl⟩

/-! ### Arithmetic helper lemmas for the float model -/

theorem floor_add_half_intCast (z : Int) : ⌊(z : ℚ) + 1/2⌋ = z := by
  have h1 : (z : ℚ) ≤ (z : ℚ) + 1/2 := by norm_num
  have h2 : (z : ℚ) + 1/2 < z + 1 := by norm_num
  exact Int.floor_eq_iff.mpr ⟨h1, h2⟩

theorem roundAway_intCast (z : Int) : roundAway (z : ℚ) = z := by
  unfold roundAway
  by_cases hz : (z : ℚ) < 0
  · rw [if_pos hz]
    have h : -(z : ℚ) + 1/2 = ((-z : Int) : ℚ) + 1/2 := by push_cast; ring
    rw [h, floor_add_half_intCast, neg_neg]
  · rw [if_neg hz, floor_add_half_intCast]

theorem roundAway_natCast (n : Nat) : roundAway (n : ℚ) = n := by
  have h : ((n : Int) : ℚ) = (n : ℚ) := by push_cast; ring
  rw [← h, roundAway_intCast]

theorem roundAway_zero : roundAway 0 = 0 := by
  have h := roundAway_natCast 0
  simpa using h

theorem roundAway_nonneg (q : ℚ) (h : 0 ≤ q) : 0 ≤ roundAway q := by
  unfold roundAway
  rw [if_neg (not_lt.mpr h)]
  exact Int.floor_nonneg.mpr (by linarith)

theorem roundAway_le_of_le (q : ℚ) (n : Int) (h0 : 0 ≤ q) (h : q ≤ (n : ℚ)) :
    roundAway q ≤ n := by
  unfold roundAway
  rw [if_neg (not_lt.mpr h0)]
  have hlt : q + 1/2 < ((n + 1 : Int) : ℚ) := by push_cast; linarith
  exact Int.lt_add_one_iff.mp (Int.floor_lt.mpr hlt)

theorem ratTrunc_intCast (z : Int) : ratTrunc (z : ℚ) = z := by
  unfold ratTrunc
  by_cases hz : (z : ℚ) < 0
  · rw [if_pos hz, Int.ceil_intCast]
  · rw [if_neg hz, Int.floor_intCast]

theorem fCastI32_finite_intCast (z : Int) (h1 : -(2 ^ 31) ≤ z)
    (h2 : z ≤ 2 ^ 31 - 1) : fCastI32 (FVal.finite (z : ℚ)) = z := by
  simp only [fCastI32]
  rw [ratTrunc_intCast, min_eq_right h2, max_eq_right h1]

/-- Rounding then casting keeps a value of `[0, n]` inside `[0, n]`. -/
theorem fCastI32_round_bounds (t : ℚ) (n : Nat) (h0 : 0 ≤ t)
    (hn : t ≤ (n : ℚ)) :
    0 ≤ fCastI32 (fround (FVal.finite t))
    ∧ fCastI32 (fround (FVal.finite t)) ≤ (n : Int) := by
  have hr0 : 0 ≤ roundAway t := roundAway_nonneg t h0
  have hrn : roundAway t ≤ (n : Int) :=
    roundAway_le_of_le t n h0 (by exact_mod_cast hn)
  simp only [fround, fCastI32]
  rw [ratTrunc_intCast]
  constructor
  · exact le_trans (le_min (by norm_num) hr0) (le_max_right _ _)
  · exact max_le (le_trans (by norm_num) (Int.natCast_nonneg n))
      (le_trans (min_le_right _ _) hrn)

/-- Rounding then casting is the identity on `[0, n]` when `n` fits `i32`. -/
theorem fCastI32_round_eq (t : ℚ) (n : Nat) (h0 : 0 ≤ t) (hn : t ≤ (n : ℚ))
    (hrange : (n : Int) ≤ 2 ^ 31 - 1) :
    fCastI32 (fround (FVal.finite t)) = roundAway t := by
  have hr0 : 0 ≤ roundAway t := roundAway_nonneg t h0
  have hrn : roundAway t ≤ (n : Int) :=
    roundAway_le_of_le t n h0 (by exact_mod_cast hn)
  simp only [fround, fCastI32]
  rw [ratTrunc_intCast, min_eq_right (le_trans hrn hrange),
    max_eq_right (le_trans (by norm_num) hr0)]

/-- The clamped-scaled-rounded-cast offset of one pointer axis always lies in
`[0, n]`, for every float input including NaN and the infinities. -/
theorem coord_offset_bounds (v : FVal) (n : Nat) :
    0 ≤ fCastI32 (fround (fmulQ (fclamp01 v) (n : ℚ)))
    ∧ fCastI32 (fround (fmulQ (fclamp01 v) (n : ℚ))) ≤ (n : Int) := by
  cases v with
  | nan =>
    refine ⟨le_rfl, ?_⟩
    exact Int.natCast_nonneg n
  | pinf =>
    have h := fCastI32_round_bounds (1 * (n : ℚ)) n
      (by positivity) (by rw [one_mul])
    simpa [fclamp01, fmulQ] using h
  | ninf =>
    have h := fCastI32_round_bounds (0 * (n : ℚ)) n
      (by simp) (by simp [Nat.cast_nonneg])
    simpa [fclamp01, fmulQ] using h
  | finite q =>
    have hc0 : 0 ≤ max 0 (min 1 q) := le_max_left 0 _
    have hc1 : max 0 (min 1 q) ≤ 1 := max_le (by norm_num) (min_le_left 1 q)
    have h := fCastI32_round_bounds (max 0 (min 1 q) * (n : ℚ)) n
      (mul_nonneg hc0 (Nat.cast_nonneg n))
      (mul_le_of_le_one_left (Nat.cast_nonneg n) hc1)
    simpa [fclamp01, fmulQ] using h

/-- `pointer_coord` stays within `[origin, origin + (dim - 1)]` for every
float input. -/
theorem pointer_coord_bounds (origin : Int) (dim : Nat) (v : FVal) :
    origin ≤ pointer_coord origin dim v
    ∧ pointer_coord origin dim v ≤ origin + ((dim - 1 : Nat) : Int) := by
  obtain ⟨h1, h2⟩ := coord_offset_bounds v (dim - 1)
  unfold pointer_coord
  omega

/-- On a finite input, `pointer_coord` is origin plus the rounded product of
the clamped input with `dim - 1`. -/
theorem pointer_coord_finite (origin : Int) (dim : Nat) (q : ℚ)
    (hdim : dim ≤ 2 ^ 31) :
    pointer_coord origin dim (FVal.finite q) =
      origin + roundAway (max 0 (min 1 q) * ((dim - 1 : Nat) : ℚ)) := by
  have hc0 : 0 ≤ max 0 (min 1 q) := le_max_left 0 _
  have hc1 : max 0 (min 1 q) ≤ 1 := max_le (by norm_num) (min_le_left 1 q)
  have hrange : ((dim - 1 : Nat) : Int) ≤ 2 ^ 31 - 1 := by omega
  have h := fCastI32_round_eq (max 0 (min 1 q) * ((dim - 1 : Nat) : ℚ))
    (dim - 1) (mul_nonneg hc0 (Nat.cast_nonneg _))
    (mul_le_of_le_one_left (Nat.cast_nonneg _) hc1) hrange
  unfold pointer_coord
  rw [show fclamp01 (FVal.finite q) = FVal.finite (max 0 (min 1 q)) from rfl]
  rw [show fmulQ (FVal.finite (max 0 (min 1 q))) ((dim - 1 : Nat) : ℚ) =
    FVal.finite (max 0 (min 1 q) * ((dim - 1 : Nat) : ℚ)) from rfl]
  rw [h]

/-! ### Claim theorems: input injection -/

/-- C5: a `PointerMove` clamps each normalized coordinate to `[0,1]`, scales
it by `dimension - 1`, rounds, and offsets by the monitor origin; the
normalized corners `(0,0)` and `(1,1)` map to the origin pixel and to
`origin + size - 1` respectively. -/
theorem pointer_move_spec (m : Monitor) (qx qy : ℚ)
    (hw1 : 1 ≤ m.width) (hw2 : m.width ≤ 2 ^ 31)
    (hh1 : 1 ≤ m.height) (hh2 : m.height ≤ 2 ^ 31) :
    apply_remote_control_input (some m)
        (RemoteControlInputEvent.PointerMove (FVal.finite qx) (FVal.finite qy)) =
      Except.ok [NativeAction.moveMouse
        (m.pos_x + roundAway (max 0 (min 1 qx) * ((m.width - 1 : Nat) : ℚ)))
        (m.pos_y + roundAway (max 0 (min 1 qy) * ((m.height - 1 : Nat) : ℚ)))]
    ∧ apply_remote_control_input (some m)
        (RemoteControlInputEvent.PointerMove (FVal.finite 0) (FVal.finite 0)) =
      Except.ok [NativeAction.moveMouse m.pos_x m.pos_y]
    ∧ apply_remote_control_input (some m)
        (RemoteControlInputEvent.PointerMove (FVal.finite 1) (FVal.finite 1)) =
      Except.ok [NativeAction.moveMouse (m.pos_x + ((m.width : Int) - 1))
        (m.pos_y + ((m.height : Int) - 1))] := by
  refine ⟨?_, ?_, ?_⟩
  · simp only [apply_remote_control_input]
    rw [pointer_coord_finite m.pos_x m.width qx hw2,
      pointer_coord_finite m.pos_y m.height qy hh2]
  · have hx := pointer_coord_finite m.pos_x m.width 0 hw2
    have hy := pointer_coord_finite m.pos_y m.height 0 hh2
    have hc : max 0 (min 1 (0 : ℚ)) = 0 := by norm_num
    rw [hc, zero_mul, roundAway_zero, add_zero] at hx hy
    simp only [apply_remote_control_input, hx, hy]
  · have hx := pointer_coord_finite m.pos_x m.width 1 hw2
    have hy := pointer_coord_finite m.pos_y m.height 1 hh2
    have hc : max 0 (min 1 (1 : ℚ)) = 1 := by norm_num
    rw [hc, one_mul, roundAway_natCast] at hx hy
    have hwc : ((m.width - 1 : Nat) : Int) = (m.width : Int) - 1 := by omega
    have hhc : ((m.height - 1 : Nat) : Int) = (m.height : Int) - 1 := by omega
    rw [hwc] at hx
    rw [hhc] at hy
    simp only [apply_remote_control_input, hx, hy]

theorem roundAway_150_div_60 : roundAway ((150 : ℚ) / 60) = 3 := by
  have he : (150 : ℚ) / 60 = 5 / 2 := by norm_num
  rw [he]
  unfold roundAway
  rw [if_neg (by norm_num)]
  have he2 : (5 / 2 : ℚ) + 1 / 2 = ((3 : Int) : ℚ) := by norm_num
  rw [he2, Int.floor_intCast]

/-- C6: the scroll-step count of a `Wheel` event is `delta_y / 60` rounded
half away from zero (whenever that fits `i32`); `delta_y = 150` performs a
3-step vertical scroll and `delta_y = 10` performs no action. -/
theorem wheel_steps_spec (mon : Option Monitor) (dy : ℚ)
    (h1 : -(2 ^ 31) ≤ roundAway (dy / 60))
    (h2 : roundAway (dy / 60) ≤ 2 ^ 31 - 1) :
    wheel_steps (FVal.finite dy) = roundAway (dy / 60)
    ∧ apply_remote_control_input mon
        (RemoteControlInputEvent.Wheel (FVal.finite 150)) =
      Except.ok [NativeAction.scroll 3 Axis.Vertical]
    ∧ apply_remote_control_input mon
        (RemoteControlInputEvent.Wheel (FVal.finite 10)) =
      Except.ok [] := by
  have hsteps : ∀ q : ℚ, wheel_steps (FVal.finite q) =
      fCastI32 (FVal.finite ((roundAway (q / 60) : Int) : ℚ)) := fun q => rfl
  refine ⟨?_, ?_, ?_⟩
  · rw [hsteps, fCastI32_finite_intCast _ h1 h2]
  · have h150 : wheel_steps (FVal.finite 150) = 3 := by
      rw [hsteps, roundAway_150_div_60,
        fCastI32_finite_intCast 3 (by norm_num) (by norm_num)]
    simp [apply_remote_control_input, h150]
  · have h10 : wheel_steps (FVal.finite 10) = 0 := by
      rw [hsteps]
      have he : (10 : ℚ) / 60 = 1 / 6 := by norm_num
      rw [he]
      have hr : roundAway (1 / 6 : ℚ) = 0 := by
        unfold roundAway
        rw [if_neg (by norm_num)]
        exact Int.floor_eq_iff.mpr ⟨by norm_num, by norm_num⟩
      rw [hr, fCastI32_finite_intCast 0 (by norm_num) (by norm_num)]
    simp [apply_remote_control_input, h10]

/-- C7: a `PointerDown` or `PointerUp` whose button name is not `left`,
`right` or `middle` performs no native button action and succeeds. -/
theorem unknown_button_noop (mon : Option Monitor) (name : String)
    (h1 : name ≠ "left") (h2 : name ≠ "right") (h3 : name ≠ "middle") :
    to_mouse_button name = none
    ∧ apply_remote_control_input mon
        (RemoteControlInputEvent.PointerDown name) = Except.ok []
    ∧ apply_remote_control_input mon
        (RemoteControlInputEvent.PointerUp name) = Except.ok [] := by
  have hb : to_mouse_button name = none := by
    simp [to_mouse_button, h1, h2, h3]
  exact ⟨hb, by simp [apply_remote_control_input, hb],
    by simp [apply_remote_control_input, hb]⟩

/-- C8 counterexample: the single-character name `" "` is not one of the
nine listed named keys, yet `to_key` sends it to the native `Space` key code
rather than to the literal space character `Key.Unicode ' '`. -/
theorem to_key_space_alias_counterexample :
    " " ∉ ["Enter", "Escape", "Backspace", "Tab", "Space",
      "ArrowUp", "ArrowDown", "ArrowLeft", "ArrowRight"]
    ∧ (" " : String).data.length = 1
    ∧ to_key " " = Key.Space
    ∧ Key.Space ≠ Key.Unicode ' ' :=
  ⟨by decide, rfl, rfl, by decide⟩

/-- C8 (amended): `to_key` sends the named keys — with `" "` accepted as an
alias of `Space` — to their native key codes, any other single-character
name to that literal character, and any other name to a space character. -/
theorem to_key_spec (s : String)
    (hs : s ∉ ["Enter", "Escape", "Backspace", "Tab", "Space", " ",
      "ArrowUp", "ArrowDown", "ArrowLeft", "ArrowRight"]) :
    to_key "Enter" = Key.Return
    ∧ to_key "Escape" = Key.Escape
    ∧ to_key "Backspace" = Key.Backspace
    ∧ to_key "Tab" = Key.Tab
    ∧ to_key "Space" = Key.Space
    ∧ to_key " " = Key.Space
    ∧ to_key "ArrowUp" = Key.UpArrow
    ∧ to_key "ArrowDown" = Key.DownArrow
    ∧ to_key "ArrowLeft" = Key.LeftArrow
    ∧ to_key "ArrowRight" = Key.RightArrow
    ∧ (s.data.length = 1 → to_key s = Key.Unicode (s.data.headD ' '))
    ∧ (s.data.length ≠ 1 → to_key s = Key.Unicode ' ') := by
  simp only [List.mem_cons, List.not_mem_nil, or_false, not_or] at hs
  obtain ⟨h1, h2, h3, h4, h5, h6, h7, h8, h9, h10⟩ := hs
  refine ⟨rfl, rfl, rfl, rfl, rfl, rfl, rfl, rfl, rfl, rfl, ?_, ?_⟩
  · intro hlen
    simp [to_key, h1, h2, h3, h4, h5, h6, h7, h8, h9, h10, hlen]
  · intro hlen
    have hlen' : s.length ≠ 1 := hlen
    simp [to_key, h1, h2, h3, h4, h5, h6, h7, h8, h9, h10, hlen, hlen']

/-- C9: for every pair of float inputs — including values outside `[0,1]`,
infinities and NaN — the computed pointer coordinates stay within
`[origin, origin + max(dimension - 1, 0)]` on each axis and within the
`i32` range (so the `i32` addition cannot overflow), for any monitor whose
pixel rectangle fits the `i32` coordinate space. -/
theorem pointer_move_within_monitor (m : Monitor) (xn yn : FVal)
    (hx1 : -(2 ^ 31) ≤ m.pos_x)
    (hx2 : m.pos_x + ((m.width - 1 : Nat) : Int) ≤ 2 ^ 31 - 1)
    (hy1 : -(2 ^ 31) ≤ m.pos_y)
    (hy2 : m.pos_y + ((m.height - 1 : Nat) : Int) ≤ 2 ^ 31 - 1) :
    ∃ x y,
      apply_remote_control_input (some m)
          (RemoteControlInputEvent.PointerMove xn yn) =
        Except.ok [NativeAction.moveMouse x y]
      ∧ m.pos_x ≤ x ∧ x ≤ m.pos_x + ((m.width - 1 : Nat) : Int)
      ∧ m.pos_y ≤ y ∧ y ≤ m.pos_y + ((m.height - 1 : Nat) : Int)
      ∧ -(2 ^ 31) ≤ x ∧ x ≤ 2 ^ 31 - 1
      ∧ -(2 ^ 31) ≤ y ∧ y ≤ 2 ^ 31 - 1 := by
  obtain ⟨ha1, ha2⟩ := pointer_coord_bounds m.pos_x m.width xn
  obtain ⟨hb1, hb2⟩ := pointer_coord_bounds m.pos_y m.height yn
  exact ⟨pointer_coord m.pos_x m.width xn, pointer_coord m.pos_y m.height yn,
    rfl, ha1, ha2, hb1, hb2, by omega, by omega, by omega, by omega⟩

/-! ### Witnesses -/

/-- Witness for C1 at a concrete snapshot with a mixed-case catalog name and
one unrelated process. -/
theorem detect_known_witness :
    detect_running_game (["Explorer.EXE", "CS2.exe"].map to_lowercase) =
      GameDetection.Known "Counter-Strike 2" "cs2.exe" :=
  detect_known_of_catalog_member ["Explorer.EXE", "CS2.exe"] "CS2.exe"
    "cs2.exe" "Counter-Strike 2" (by decide) (by decide) (by decide) (by decide)

/-- Witness for C2: both Elden Ring (index 9) and Rainbow Six (index 19)
are in the snapshot; the earlier catalog entry wins. -/
theorem detect_first_witness :
    detect_running_game ["rainbowsix_vulkan.exe", "eldenring"] =
      GameDetection.Known "Elden Ring" "eldenring" :=
  detect_first_catalog_match ["rainbowsix_vulkan.exe", "eldenring"] 9
    (by decide) (by decide) (by decide)

/-- Witness for C3 at a concrete two-element swap. -/
theorem detect_perm_witness :
    detect_running_game ["discord.exe", "r5apex.exe"] =
      detect_running_game ["r5apex.exe", "discord.exe"] :=
  detect_perm_invariant ["discord.exe", "r5apex.exe"]
    ["r5apex.exe", "discord.exe"]
    (List.Perm.swap "r5apex.exe" "discord.exe" [])

/-- Witness for C5 on a 1920×1080 monitor at the origin: the bottom-right
normalized corner maps to pixel (1919, 1079). -/
theorem pointer_move_witness :
    apply_remote_control_input (some ⟨1920, 1080, 0, 0⟩)
        (RemoteControlInputEvent.PointerMove (FVal.finite 1) (FVal.finite 1)) =
      Except.ok [NativeAction.moveMouse 1919 1079] := by
  have h := (pointer_move_spec ⟨1920, 1080, 0, 0⟩ (1/2) (1/2)
    (by norm_num) (by norm_num) (by norm_num) (by norm_num)).2.2
  simpa using h

/-- Witness for C6 at `delta_y = 150`. -/
theorem wheel_steps_witness :
    wheel_steps (FVal.finite 150) = roundAway ((150 : ℚ) / 60)
    ∧ apply_remote_control_input none
        (RemoteControlInputEvent.Wheel (FVal.finite 150)) =
      Except.ok [NativeAction.scroll 3 Axis.Vertical]
    ∧ apply_remote_control_input none
        (RemoteControlInputEvent.Wheel (FVal.finite 10)) =
      Except.ok [] :=
  wheel_steps_spec none 150 (by rw [roundAway_150_div_60]; norm_num)
    (by rw [roundAway_150_div_60]; norm_num)

/-- Witness for C7 at the unrecognized button name `"x1"`. -/
theorem unknown_button_witness :
    to_mouse_button "x1" = none
    ∧ apply_remote_control_input none
        (RemoteControlInputEvent.PointerDown "x1") = Except.ok []
    ∧ apply_remote_control_input none
        (RemoteControlInputEvent.PointerUp "x1") = Except.ok [] :=
  unknown_button_noop none "x1" (by decide) (by decide) (by decide)

/-- Witness for C8 (amended) at the single-character name `"q"`. -/
theorem to_key_witness :
    to_key "Enter" = Key.Return
    ∧ to_key "Escape" = Key.Escape
    ∧ to_key "Backspace" = Key.Backspace
    ∧ to_key "Tab" = Key.Tab
    ∧ to_key "Space" = Key.Space
    ∧ to_key " " = Key.Space
    ∧ to_key "ArrowUp" = Key.UpArrow
    ∧ to_key "ArrowDown" = Key.DownArrow
    ∧ to_key "ArrowLeft" = Key.LeftArrow
    ∧ to_key "ArrowRight" = Key.RightArrow
    ∧ (("q" : String).data.length = 1 →
        to_key "q" = Key.Unicode (("q" : String).data.headD ' '))
    ∧ (("q" : String).data.length ≠ 1 → to_key "q" = Key.Unicode ' ') :=
  to_key_spec "q" (by decide)

/-- Witness for C9 on a 1920×1080 monitor at origin (100, 200) with NaN and
positive-infinity inputs. -/
theorem pointer_move_within_witness :
    ∃ x y,
      apply_remote_control_input (some ⟨1920, 1080, 100, 200⟩)
          (RemoteControlInputEvent.PointerMove FVal.nan FVal.pinf) =
        Except.ok [NativeAction.moveMouse x y]
      ∧ (100 : Int) ≤ x ∧ x ≤ 100 + ((1920 - 1 : Nat) : Int)
      ∧ (200 : Int) ≤ y ∧ y ≤ 200 + ((1080 - 1 : Nat) : Int)
      ∧ -(2 ^ 31) ≤ x ∧ x ≤ 2 ^ 31 - 1
      ∧ -(2 ^ 31) ≤ y ∧ y ≤ 2 ^ 31 - 1 :=
  pointer_move_within_monitor ⟨1920, 1080, 100, 200⟩ FVal.nan FVal.pinf
    (by decide) (by decide) (by decide) (by decide)

end ChitChat
